import Mathlib

/-!
Shallow embedding of the AWS_Classes DynamoDB synchronization utility.

The source is a single Python module built around four pieces:
a pure key-derivation function `create_unique_ilvl_str`, a snapshot
aggregator `get_stash_quantities`, a set of table operations on a
DynamoDB table (`update_table`, `upload_stash`, `reset_table`,
`find_top_quantity`, `get_item`), and HTTP glue that is out of scope.

Modelling conventions:
* Python integers become `Int`; the aggregation counter becomes `Nat`.
* The DynamoDB table is a durable mapping from the string primary key
  `Unique_ID` to an attribute record; it is embedded as an association
  list `Store`.  DynamoDB items may lack the `item` and `ilvl`
  attributes (the update expressions of this module do not always set
  them), so those attributes are `Option`-valued, while `quantity` is
  written by every code path that creates a record.
* Python dictionaries keep insertion order; `dictGet`, `dictInsert`
  and `incrQty` reproduce lookup, insert-or-replace and in-place
  mutation on association lists.
* A raised Python exception is modelled with `Except PyErr`; `keyError`
  stands for `KeyError` (a missing dictionary key or item attribute)
  and `nameError` for `NameError` (an undefined global name).
* A JSON row of the remote snapshot feed carries a `name` field and an
  `ilvl` field; the latter may be absent from the row dictionary
  (`IlvlField.missing`, access raises `KeyError`), may hold the empty
  string (`IlvlField.emptyStr`, the non-empty check filters it), or
  holds an integer (`IlvlField.val`).
-/

/-- Python exceptions that the embedded code can raise. -/
inductive PyErr where
  | keyError : PyErr
  | nameError : PyErr
deriving DecidableEq

/-- The `ilvl` field of a snapshot row: absent from the row dictionary,
present but the empty string, or an integer level. -/
inductive IlvlField where
  | missing : IlvlField
  | emptyStr : IlvlField
  | val : Int → IlvlField
deriving DecidableEq

/-- One item row of a snapshot stash, with the two fields the code reads. -/
structure Row where
  name : String
  ilvl : IlvlField
deriving DecidableEq

/-- One value of the aggregation dictionary built by `get_stash_quantities`:
the stored `ilvl`, `item` and occurrence count `quantity`. -/
structure Entry where
  ilvl : Int
  item : String
  quantity : Nat
deriving DecidableEq

/-- One DynamoDB item.  `item` and `ilvl` are optional attributes because
some update expressions in the source create records without them;
`quantity` is set by every write path. -/
structure DBItem where
  item : Option String
  ilvl : Option Int
  quantity : Int
deriving DecidableEq

/-- The DynamoDB table, keyed by `Unique_ID`, in storage order. -/
abbrev Store := List (String × DBItem)

/-- The aggregation dictionary of `get_stash_quantities`, in insertion order. -/
abbrev UniqueItems := List (String × Entry)

/-- Python dictionary lookup `d[k]` (first binding of the key, if any). -/
def dictGet {α : Type} : List (String × α) → String → Option α
  | [], _ => none
  | (k, v) :: rest, key => if k = key then some v else dictGet rest key

/-- Python dictionary assignment `d[k] = v`: replace the binding in place
if the key is present, otherwise append a new binding. -/
def dictInsert {α : Type} : List (String × α) → String → α → List (String × α)
  | [], key, v => [(key, v)]
  | (k, w) :: rest, key, v =>
    if k = key then (k, v) :: rest else (k, w) :: dictInsert rest key v

/-- Line 441: `create_unique_ilvl_str(ilvl, item)` builds the primary key by
inverting the level and concatenating the name, with a two-branch zero pad. -/
def create_unique_ilvl_str (ilvl : Int) (item : String) : String :=
  if ilvl ≤ 90 then "0" ++ toString (100 - ilvl) ++ item
  else "00" ++ toString (100 - ilvl) ++ item

/-- The level-dependent part of `create_unique_ilvl_str`, so that the derived
key is exactly this string followed by the item name. -/
def lvlKey (ilvl : Int) : String :=
  if ilvl ≤ 90 then "0" ++ toString (100 - ilvl)
  else "00" ++ toString (100 - ilvl)

/-- Line 565: `unique_items[unique_]['quantity'] += 1`, the in-place
increment of the quantity of the first binding of `key`. -/
def incrQty : UniqueItems → String → UniqueItems
  | [], _ => []
  | (k, e) :: rest, key =>
    if k = key then (k, { e with quantity := e.quantity + 1 }) :: rest
    else (k, e) :: incrQty rest key

/-- Lines 556-572: the body of the row loop of `get_stash_quantities`.
A row with empty `name` is skipped before `ilvl` is read; reading a
missing `ilvl` raises `KeyError`; an empty-string `ilvl` fails the
non-empty check; otherwise the derived key is counted. -/
def stepRow (m : UniqueItems) (r : Row) : Except PyErr UniqueItems :=
  if r.name = "" then Except.ok m
  else
    match r.ilvl with
    | IlvlField.missing => Except.error PyErr.keyError
    | IlvlField.emptyStr => Except.ok m
    | IlvlField.val n =>
      let u := create_unique_ilvl_str n r.name
      if (dictGet m u).isSome then Except.ok (incrQty m u)
      else Except.ok (m ++ [(u, { ilvl := n, item := r.name, quantity := 1 })])

/-- The inner `for row in stash['items']` loop of `get_stash_quantities`. -/
def aggRows : UniqueItems → List Row → Except PyErr UniqueItems
  | m, [] => Except.ok m
  | m, r :: rest =>
    match stepRow m r with
    | Except.ok m₁ => aggRows m₁ rest
    | Except.error e => Except.error e

/-- The outer `for stash in item_list['stashes']` loop of `get_stash_quantities`. -/
def aggStashes : UniqueItems → List (List Row) → Except PyErr UniqueItems
  | m, [] => Except.ok m
  | m, s :: rest =>
    match aggRows m s with
    | Except.ok m₁ => aggStashes m₁ rest
    | Except.error e => Except.error e

/-- Line 540: `get_stash_quantities(item_list)` aggregates one snapshot batch
into a dictionary from derived key to `{ilvl, item, quantity}`. -/
def get_stash_quantities (item_list : List (List Row)) : Except PyErr UniqueItems :=
  aggStashes [] item_list

/-- The derived key a row contributes to the aggregation, if the row passes
the non-empty check and its `ilvl` is an integer. -/
def rowKey (r : Row) : Option String :=
  if r.name = "" then none
  else
    match r.ilvl with
    | IlvlField.val n => some (create_unique_ilvl_str n r.name)
    | _ => none

/-- Quantity stored under a key of the aggregation dictionary, zero if absent. -/
def qtyOf (m : UniqueItems) (k : String) : Nat :=
  match dictGet m k with
  | some e => e.quantity
  | none => 0

/-- Lines 226-253: one iteration of `update_table`.  A present key gets
`SET quantity = quantity + :q`; an absent key gets `SET quantity = :q`
only, so the created item carries neither `item` nor `ilvl`.  The pair
returned is the new table and the `ALL_NEW` attribute set. -/
def update_table_write (s : Store) (k : String) (e : Entry) : Store × DBItem :=
  match dictGet s k with
  | some old =>
    let r : DBItem := { old with quantity := old.quantity + (e.quantity : Int) }
    (dictInsert s k r, r)
  | none =>
    let r : DBItem := { item := none, ilvl := none, quantity := (e.quantity : Int) }
    (dictInsert s k r, r)

/-- The `for item in unique_items` loop of `update_table`.  After each write
the log line reads `response['Attributes']['item']` and `['ilvl']`, which
raises `KeyError` when the attribute is absent from the written item. -/
def update_table_go : Store → List (String × Entry) → Except PyErr Store
  | s, [] => Except.ok s
  | s, ke :: rest =>
    let w := update_table_write s ke.1 ke.2
    if w.2.item.isSome && w.2.ilvl.isSome then update_table_go w.1 rest
    else Except.error PyErr.keyError

/-- Line 213: `update_table(unique_items)` pushes one aggregated batch into
the table, key by key, in dictionary order. -/
def update_table (store : Store) (unique_items : List (String × Entry)) :
    Except PyErr Store :=
  update_table_go store unique_items

/-- Lines 275-311: the body of the row loop of `upload_stash`.  A row that
passes the non-empty check and whose key is present is skipped by
`continue`; reading a missing `ilvl` raises `KeyError`; the create branch
evaluates the undefined global name `table` (line 290, instead of
`self.table`) and raises `NameError` before any write happens. -/
def upload_stash_row (store : Store) (r : Row) : Except PyErr Unit :=
  if r.name = "" then Except.ok ()
  else
    match r.ilvl with
    | IlvlField.missing => Except.error PyErr.keyError
    | IlvlField.emptyStr => Except.ok ()
    | IlvlField.val n =>
      if (dictGet store (create_unique_ilvl_str n r.name)).isSome then Except.ok ()
      else Except.error PyErr.nameError

/-- The inner row loop of `upload_stash`. -/
def upload_stash_rows (store : Store) : List Row → Except PyErr Unit
  | [] => Except.ok ()
  | r :: rest =>
    match upload_stash_row store r with
    | Except.ok _ => upload_stash_rows store rest
    | Except.error e => Except.error e

/-- The outer stash loop of `upload_stash`. -/
def upload_stash_go (store : Store) : List (List Row) → Except PyErr Unit
  | [] => Except.ok ()
  | s :: rest =>
    match upload_stash_rows store s with
    | Except.ok _ => upload_stash_go store rest
    | Except.error e => Except.error e

/-- Line 263: `upload_stash(current_stash)`.  No reachable branch writes to
the table, so on normal return the table is unchanged. -/
def upload_stash (store : Store) (current_stash : List (List Row)) :
    Except PyErr Store :=
  match upload_stash_go store current_stash with
  | Except.ok _ => Except.ok store
  | Except.error e => Except.error e

/-- One record of the in-memory dictionary built by the scan loop of
`find_top_quantity` (`{'item': ..., 'ilvl': ..., 'quantity': ...}`). -/
structure TopRec where
  item : String
  ilvl : Int
  quantity : Int
deriving DecidableEq

/-- Result of `find_top_quantity`: either the empty-table sentinel message
dictionary or the accumulated list of records. -/
inductive TopResult where
  | emptyMessage : TopResult
  | items : List TopRec → TopResult
deriving DecidableEq

/-- Lines 68-87: the scan loop of `find_top_quantity` loads every record into
`lvl_dict`, reading the `item`, `ilvl` and `quantity` attributes; a record
lacking `item` or `ilvl` raises `KeyError`. -/
def scanLoad_go : List (String × TopRec) → Store → Except PyErr (List (String × TopRec))
  | d, [] => Except.ok d
  | d, kr :: rest =>
    match kr.2.item, kr.2.ilvl with
    | some it, some lv => scanLoad_go (dictInsert d kr.1 ⟨it, lv, kr.2.quantity⟩) rest
    | _, _ => Except.error PyErr.keyError

/-- Stable insertion of one binding into a key-sorted list, for `sorted`. -/
def insertByKey (x : String × TopRec) : List (String × TopRec) → List (String × TopRec)
  | [] => [x]
  | y :: ys => if x.1 ≤ y.1 then x :: y :: ys else y :: insertByKey x ys

/-- Line 99: `sorted(lvl_dict.items(), key=lambda item: item[0])`, the stable
sort of the scanned records by primary key ascending. -/
def sortByKey : List (String × TopRec) → List (String × TopRec)
  | [] => []
  | x :: xs => insertByKey x (sortByKey xs)

/-- Lines 109-121: the accumulation loop of `find_top_quantity`.  A record
with positive quantity is appended and counted; after every iteration the
loop stops once the summed quantity or the record count reaches the bound. -/
def top_walk (n : Int) : List (String × TopRec) → Int → Int → List TopRec → List TopRec
  | [], _, _, acc => acc
  | kr :: rest, total, counter, acc =>
    if kr.2.quantity > 0 then
      let total₁ := total + kr.2.quantity
      let counter₁ := counter + 1
      let acc₁ := acc ++ [kr.2]
      if total₁ ≥ n ∨ counter₁ ≥ n then acc₁ else top_walk n rest total₁ counter₁ acc₁
    else
      if total ≥ n ∨ counter ≥ n then acc else top_walk n rest total counter acc

/-- Line 47: `find_top_quantity(number_of_items)`: scan the whole table,
return the sentinel message if it is empty, otherwise sort by key and walk
the sorted records accumulating positive quantities up to the bound. -/
def find_top_quantity (store : Store) (number_of_items : Int) : Except PyErr TopResult :=
  match scanLoad_go [] store with
  | Except.error e => Except.error e
  | Except.ok d =>
    if d.length = 0 then Except.ok TopResult.emptyMessage
    else Except.ok (TopResult.items (top_walk number_of_items (sortByKey d) 0 0 []))

/-- Lines 356-375: the mutation loop of `reset_table`.  Each collected key is
overwritten with `SET quantity = :q` at zero; the log line then reads the
`item` and `ilvl` attributes of the `ALL_OLD` image and raises `KeyError`
if either is absent (or if the key vanished, leaving no old image). -/
def reset_table_go : Store → List String → Except PyErr Store
  | s, [] => Except.ok s
  | s, id :: rest =>
    match dictGet s id with
    | none => Except.error PyErr.keyError
    | some old =>
      let s₁ := dictInsert s id { old with quantity := 0 }
      if old.item.isSome && old.ilvl.isSome then reset_table_go s₁ rest
      else Except.error PyErr.keyError

/-- Line 318: `reset_table()`: collect the keys of all records with positive
quantity by a filtered scan, then overwrite each quantity with zero. -/
def reset_table (store : Store) : Except PyErr Store :=
  reset_table_go store ((store.filter (fun kr => kr.2.quantity > 0)).map Prod.fst)

/-- Result of `get_item`: the stored record, or the not-found message
dictionary carrying the decoded name and the level. -/
inductive GetResult where
  | found : DBItem → GetResult
  | notFound : String → Int → GetResult
deriving DecidableEq

/-- Line 157: `get_item(item, ilvl)`: URL-decode the name, derive the key,
point-read the table, and return the record or the not-found variant.
The URL decoder is the external `urllib.parse.unquote`, taken as a
parameter. -/
def get_item (url_decode : String → String) (store : Store)
    (item : String) (ilvl : Int) : GetResult :=
  let item₁ := url_decode item
  let id := create_unique_ilvl_str ilvl item₁
  match dictGet store id with
  | some rec => GetResult.found rec
  | none => GetResult.notFound item₁ ilvl

/-! ## Properties of the key derivation -/

set_option maxRecDepth 40000

theorem str_toList_inj {s t : String} (h : s.toList = t.toList) : s = t := by
  cases s
  cases t
  exact congrArg String.mk h

theorem toList_append (s t : String) : (s ++ t).toList = s.toList ++ t.toList := by
  cases s
  cases t
  rfl

theorem create_eq_lvlKey_append (l : Int) (n : String) :
    create_unique_ilvl_str l n = lvlKey l ++ n := by
  unfold create_unique_ilvl_str lvlKey
  split
  · exact str_toList_inj (by cases n; rfl)
  · exact str_toList_inj (by cases n; rfl)

theorem lvlKey_toList_len : ∀ a : Nat, a < 100 → (lvlKey ((a : Int) + 1)).toList.length = 3 := by
  decide

theorem lvlKey_inj_nat : ∀ a : Nat, a < 100 → ∀ b : Nat, b < 100 →
    lvlKey ((a : Int) + 1) = lvlKey ((b : Int) + 1) → a = b := by
  decide

theorem lvlKey_lt_nat : ∀ a : Nat, a < 100 → ∀ b : Nat, b < 100 → b < a →
    List.Lex (· < ·) (lvlKey ((a : Int) + 1)).toList (lvlKey ((b : Int) + 1)).toList := by
  decide

theorem lex_append_of_lex {r : Char → Char → Prop} {p₁ p₂ : List Char}
    (h : List.Lex r p₁ p₂) :
    ∀ n₁ n₂ : List Char, p₁.length = p₂.length → List.Lex r (p₁ ++ n₁) (p₂ ++ n₂) := by
  induction h with
  | nil => intro n₁ n₂ hlen; simp at hlen
  | cons h ih => intro n₁ n₂ hlen; exact List.Lex.cons (ih n₁ n₂ (by simpa using hlen))
  | rel h => intro n₁ n₂ hlen; exact List.Lex.rel h

theorem lex_append_same {r : Char → Char → Prop} :
    ∀ (p : List Char) {n₁ n₂ : List Char},
      List.Lex r n₁ n₂ → List.Lex r (p ++ n₁) (p ++ n₂) := by
  intro p
  induction p with
  | nil => intro n₁ n₂ h; exact h
  | cons c cs ih => intro n₁ n₂ h; exact List.Lex.cons (ih h)

theorem exists_nat_repr {l : Int} (h1 : 1 ≤ l) (h2 : l ≤ 100) :
    ∃ a : Nat, a < 100 ∧ l = (a : Int) + 1 :=
  ⟨(l - 1).toNat, by omega, by omega⟩

/-- C1 (counterexample): within the claimed level range 0..100 and with
non-empty names, the key derivation is not collision-free: level 0 with
name X and level 90 with name 0X derive the same key 0100X, although the
pairs differ. -/
theorem c1_key_collision_counterexample :
    create_unique_ilvl_str 0 "X" = create_unique_ilvl_str 90 "0X" ∧
      ((0 : Int) ≤ 0 ∧ (0 : Int) ≤ 100 ∧ (0 : Int) ≤ 90 ∧ (90 : Int) ≤ 100) ∧
      ("X" : String) ≠ "" ∧ ("0X" : String) ≠ "" ∧
      ¬ ((0 : Int) = 90 ∧ ("X" : String) = "0X") := by
  refine ⟨by decide, by decide, by decide, by decide, by decide⟩

/-- C1 (amended): on levels 1..100 with non-empty names the key derivation
is deterministic and injective: two pairs derive the same key exactly when
they are the same pair.  (At level 0 the derived key collides with level
90 keys, so the claimed range 0..100 had to shrink to 1..100.) -/
theorem c1_derive_injective_on_levels_1_100 :
    ∀ l₁ l₂ : Int, 1 ≤ l₁ → l₁ ≤ 100 → 1 ≤ l₂ → l₂ ≤ 100 →
      ∀ n₁ n₂ : String, n₁ ≠ "" → n₂ ≠ "" →
        (create_unique_ilvl_str l₁ n₁ = create_unique_ilvl_str l₂ n₂ ↔
          (l₁ = l₂ ∧ n₁ = n₂)) := by
  intro l₁ l₂ hl₁ hl₁u hl₂ hl₂u n₁ n₂ _ _
  constructor
  · intro h
    rw [create_eq_lvlKey_append, create_eq_lvlKey_append] at h
    have hd := congrArg String.toList h
    rw [toList_append, toList_append] at hd
    obtain ⟨a, ha, rfl⟩ := exists_nat_repr hl₁ hl₁u
    obtain ⟨b, hb, rfl⟩ := exists_nat_repr hl₂ hl₂u
    have hlen : (lvlKey ((a : Int) + 1)).toList.length =
        (lvlKey ((b : Int) + 1)).toList.length := by
      rw [lvlKey_toList_len a ha, lvlKey_toList_len b hb]
    have hinj := List.append_inj hd hlen
    have hab : a = b := lvlKey_inj_nat a ha b hb (str_toList_inj hinj.1)
    subst hab
    exact ⟨rfl, str_toList_inj hinj.2⟩
  · rintro ⟨rfl, rfl⟩
    rfl

/-- C1 (witness): the amended injectivity theorem applied at the concrete
pairs (85, Sword) and (90, Axe). -/
theorem c1_derive_injective_witness :
    create_unique_ilvl_str 85 "Sword" = create_unique_ilvl_str 90 "Axe" ↔
      ((85 : Int) = 90 ∧ ("Sword" : String) = "Axe") :=
  c1_derive_injective_on_levels_1_100 85 90 (by decide) (by decide) (by decide)
    (by decide) "Sword" "Axe" (by decide) (by decide)

/-- C3 (counterexample): with level 0 allowed, ascending key order does not
invert the level order: 90 > 0 but the key of (90, Z) is not less than the
key of (0, A), both names being non-empty. -/
theorem c3_sort_counterexample :
    (90 : Int) > 0 ∧ ("Z" : String) ≠ "" ∧ ("A" : String) ≠ "" ∧
      ¬ (create_unique_ilvl_str 90 "Z" < create_unique_ilvl_str 0 "A") := by
  refine ⟨by decide, by decide, by decide, ?_⟩
  rw [String.lt_iff_toList_lt]
  decide

/-- C3 (amended): on levels 1..100 the derived keys sort by descending level
(a strictly higher level gives a strictly smaller key, whatever the
names), and at equal level by ascending name.  (Level 0 had to be dropped
from the cross-level part, as the counterexample shows.) -/
theorem c3_sorted_order_on_levels_1_100 :
    (∀ l₁ l₂ : Int, 1 ≤ l₁ → l₁ ≤ 100 → 1 ≤ l₂ → l₂ ≤ 100 →
      ∀ n₁ n₂ : String, n₁ ≠ "" → n₂ ≠ "" → l₁ > l₂ →
        create_unique_ilvl_str l₁ n₁ < create_unique_ilvl_str l₂ n₂) ∧
    (∀ l : Int, 0 ≤ l → l ≤ 100 → ∀ n₁ n₂ : String, n₁ ≠ "" → n₂ ≠ "" →
      n₁ < n₂ → create_unique_ilvl_str l n₁ < create_unique_ilvl_str l n₂) := by
  constructor
  · intro l₁ l₂ hl₁ hl₁u hl₂ hl₂u n₁ n₂ _ _ hgt
    rw [create_eq_lvlKey_append, create_eq_lvlKey_append, String.lt_iff_toList_lt,
      toList_append, toList_append]
    obtain ⟨a, ha, rfl⟩ := exists_nat_repr hl₁ hl₁u
    obtain ⟨b, hb, rfl⟩ := exists_nat_repr hl₂ hl₂u
    have hba : b < a := by omega
    exact lex_append_of_lex (lvlKey_lt_nat a ha b hb hba) n₁.toList n₂.toList
      (by rw [lvlKey_toList_len a ha, lvlKey_toList_len b hb])
  · intro l _ _ n₁ n₂ _ _ hlt
    rw [String.lt_iff_toList_lt] at hlt
    rw [create_eq_lvlKey_append, create_eq_lvlKey_append, String.lt_iff_toList_lt,
      toList_append, toList_append]
    exact lex_append_same (lvlKey l).toList hlt

/-- C3 (witness): the amended ordering theorem applied at concrete records:
level 90 before level 85 whatever the names, and Axe before Sword at equal
level 85. -/
theorem c3_sorted_order_witness :
    create_unique_ilvl_str 90 "Zebra" < create_unique_ilvl_str 85 "Axe" ∧
      create_unique_ilvl_str 85 "Axe" < create_unique_ilvl_str 85 "Sword" := by
  constructor
  · exact c3_sorted_order_on_levels_1_100.1 90 85 (by decide) (by decide) (by decide)
      (by decide) "Zebra" "Axe" (by decide) (by decide) (by decide)
  · exact c3_sorted_order_on_levels_1_100.2 85 (by decide) (by decide) "Axe" "Sword"
      (by decide) (by decide)
      (by rw [String.lt_iff_toList_lt]; decide)

/-- C5: the key derivation follows the two-branch algorithm exactly, and
reproduces the two literal outputs required by the specification:
derive(85, Sword) = 015Sword and derive(95, Sword) = 005Sword. -/
theorem c5_two_branch_algorithm :
    (∀ (ilvl : Int) (item : String),
      create_unique_ilvl_str ilvl item =
        if ilvl ≤ 90 then "0" ++ toString (100 - ilvl) ++ item
        else "00" ++ toString (100 - ilvl) ++ item) ∧
    create_unique_ilvl_str 85 "Sword" = "015Sword" ∧
    create_unique_ilvl_str 95 "Sword" = "005Sword" :=
  ⟨fun _ _ => rfl, by decide, by decide⟩

/-! ## Properties of the snapshot aggregation -/

theorem dictGet_incrQty (m : UniqueItems) (u k : String) :
    dictGet (incrQty m u) k =
      if u = k then Option.map (fun e => { e with quantity := e.quantity + 1 }) (dictGet m k)
      else dictGet m k := by
  induction m with
  | nil => simp [incrQty, dictGet]
  | cons kv rest ih =>
    obtain ⟨k₁, e₁⟩ := kv
    by_cases h₁ : k₁ = u
    · subst h₁
      by_cases h₂ : k₁ = k <;> simp [incrQty, dictGet, h₂]
    · by_cases h₂ : k₁ = k
      · subst h₂
        have hne : ¬ u = k₁ := fun hc => h₁ hc.symm
        simp [incrQty, dictGet, h₁, hne]
      · simp [incrQty, dictGet, h₁, h₂, ih]

theorem map_fst_incrQty (m : UniqueItems) (u : String) :
    (incrQty m u).map Prod.fst = m.map Prod.fst := by
  induction m with
  | nil => rfl
  | cons kv rest ih =>
    obtain ⟨k₁, e₁⟩ := kv
    by_cases h : k₁ = u <;> simp [incrQty, h, ih]

theorem dictGet_append {α : Type} (m : List (String × α)) (u k : String) (e : α) :
    dictGet (m ++ [(u, e)]) k =
      match dictGet m k with
      | some v => some v
      | none => if u = k then some e else none := by
  induction m with
  | nil => simp [dictGet]
  | cons kv rest ih =>
    obtain ⟨k₁, v₁⟩ := kv
    by_cases h : k₁ = k <;> simp [dictGet, h, ih]

theorem dictGet_eq_none_iff {α : Type} (m : List (String × α)) (k : String) :
    dictGet m k = none ↔ k ∉ m.map Prod.fst := by
  induction m with
  | nil => simp [dictGet]
  | cons kv rest ih =>
    obtain ⟨k₁, v₁⟩ := kv
    by_cases h : k₁ = k
    · subst h
      simp [dictGet]
    · have h' : ¬ k = k₁ := fun hc => h hc.symm
      simp [dictGet, h, h', ih]

theorem stepRow_ok {m m' : UniqueItems} {r : Row} (h : stepRow m r = Except.ok m') :
    (∀ k, qtyOf m' k = qtyOf m k + (if rowKey r = some k then 1 else 0)) ∧
    (∀ k, (dictGet m' k).isSome ↔ ((dictGet m k).isSome ∨ rowKey r = some k)) ∧
    ((m.map Prod.fst).Nodup → (m'.map Prod.fst).Nodup) := by
  obtain ⟨nm, il⟩ := r
  by_cases hn : nm = ""
  · subst hn
    simp [stepRow] at h
    subst h
    simp [rowKey]
  · cases il with
    | missing => simp [stepRow, hn] at h
    | emptyStr =>
      simp [stepRow, hn] at h
      subst h
      simp [rowKey, hn]
    | val n =>
      have hrk : rowKey ⟨nm, IlvlField.val n⟩ = some (create_unique_ilvl_str n nm) := by
        simp [rowKey, hn]
      simp only [stepRow, if_neg hn] at h
      by_cases hsome : (dictGet m (create_unique_ilvl_str n nm)).isSome
      · rw [if_pos hsome] at h
        simp only [Except.ok.injEq] at h
        subst h
        refine ⟨?_, ?_, ?_⟩
        · intro k
          rw [hrk]
          by_cases hk : create_unique_ilvl_str n nm = k
          · subst hk
            obtain ⟨e, he⟩ := Option.isSome_iff_exists.mp hsome
            simp [qtyOf, dictGet_incrQty, he]
          · simp [qtyOf, dictGet_incrQty, hk]
        · intro k
          rw [hrk]
          by_cases hk : create_unique_ilvl_str n nm = k
          · subst hk
            simp [dictGet_incrQty, hsome]
          · simp [dictGet_incrQty, hk]
        · intro hnd
          rw [map_fst_incrQty]
          exact hnd
      · rw [if_neg hsome] at h
        simp only [Except.ok.injEq] at h
        subst h
        have hnone : dictGet m (create_unique_ilvl_str n nm) = none :=
          Option.not_isSome_iff_eq_none.mp hsome
        refine ⟨?_, ?_, ?_⟩
        · intro k
          rw [hrk]
          by_cases hk : create_unique_ilvl_str n nm = k
          · subst hk
            simp [qtyOf, dictGet_append, hnone]
          · simp only [qtyOf, dictGet_append]
            cases hd : dictGet m k with
            | some v => simp [hk]
            | none => simp [hk]
        · intro k
          rw [hrk]
          by_cases hk : create_unique_ilvl_str n nm = k
          · subst hk
            simp [dictGet_append, hnone]
          · simp only [dictGet_append]
            cases hd : dictGet m k with
            | some v => simp [hk]
            | none => simp [hk]
        · intro hnd
          have hmem : create_unique_ilvl_str n nm ∉ m.map Prod.fst :=
            (dictGet_eq_none_iff m _).mp hnone
          simp [List.nodup_append, hnd, hmem]

theorem aggRows_ok : ∀ (rows : List Row) (m₀ m : UniqueItems),
    aggRows m₀ rows = Except.ok m →
    (∀ k, qtyOf m k = qtyOf m₀ k + ((rows.filterMap rowKey).count k)) ∧
    (∀ k, (dictGet m k).isSome ↔ ((dictGet m₀ k).isSome ∨ k ∈ rows.filterMap rowKey)) ∧
    ((m₀.map Prod.fst).Nodup → (m.map Prod.fst).Nodup) := by
  intro rows
  induction rows with
  | nil =>
    intro m₀ m h
    simp [aggRows] at h
    subst h
    simp
  | cons r rest ih =>
    intro m₀ m h
    simp only [aggRows] at h
    cases hs : stepRow m₀ r with
    | error e => rw [hs] at h; exact absurd h (by simp)
    | ok m₁ =>
      rw [hs] at h
      obtain ⟨hq1, hm1, hn1⟩ := stepRow_ok hs
      obtain ⟨hq2, hm2, hn2⟩ := ih m₁ m h
      refine ⟨?_, ?_, fun hnd => hn2 (hn1 hnd)⟩
      · intro k
        rw [hq2 k, hq1 k]
        cases hrk : rowKey r with
        | none => simp [List.filterMap_cons, hrk]
        | some u =>
          simp only [List.filterMap_cons, hrk, List.count_cons]
          by_cases hk : u = k
          · subst hk
            simp
            omega
          · simp [hk]
      · intro k
        rw [hm2 k, hm1 k]
        cases hrk : rowKey r with
        | none => simp [List.filterMap_cons, hrk]
        | some u =>
          simp only [List.filterMap_cons, hrk, List.mem_cons, Option.some.injEq]
          constructor
          · rintro ((hx | rfl) | hx)
            · exact Or.inl hx
            · exact Or.inr (Or.inl rfl)
            · exact Or.inr (Or.inr hx)
          · rintro (hx | (rfl | hx))
            · exact Or.inl (Or.inl hx)
            · exact Or.inl (Or.inr rfl)
            · exact Or.inr hx

theorem aggRows_append (xs ys : List Row) : ∀ m₀ : UniqueItems,
    aggRows m₀ (xs ++ ys) =
      match aggRows m₀ xs with
      | Except.ok m₁ => aggRows m₁ ys
      | Except.error e => Except.error e := by
  induction xs with
  | nil => intro m₀; simp [aggRows]
  | cons r rest ih =>
    intro m₀
    simp only [List.cons_append, aggRows]
    cases hs : stepRow m₀ r with
    | error e => rfl
    | ok m₁ => exact ih m₁

theorem aggStashes_flatten : ∀ (stashes : List (List Row)) (m₀ : UniqueItems),
    aggStashes m₀ stashes = aggRows m₀ stashes.flatten := by
  intro stashes
  induction stashes with
  | nil => intro m₀; simp [aggStashes, aggRows]
  | cons s rest ih =>
    intro m₀
    rw [List.flatten_cons, aggRows_append]
    simp only [aggStashes]
    cases hs : aggRows m₀ s with
    | error e => rfl
    | ok m₁ => exact ih m₁

/-- C4: a successful aggregation pass produces exactly one dictionary entry
per distinct derived key observed among the rows passing the non-empty
check (the key list is duplicate-free, and a key is bound exactly when
some row of the batch derives it), and the quantity bound to a key equals
the number of rows of the batch deriving that key, so no row is ever
counted twice. -/
theorem c4_aggregation_counts (batch : List (List Row)) (m : UniqueItems)
    (h : get_stash_quantities batch = Except.ok m) :
    (m.map Prod.fst).Nodup ∧
    (∀ k, (dictGet m k).isSome ↔ k ∈ batch.flatten.filterMap rowKey) ∧
    (∀ k e, dictGet m k = some e →
      e.quantity = (batch.flatten.filterMap rowKey).count k) := by
  rw [get_stash_quantities, aggStashes_flatten] at h
  obtain ⟨hq, hm, hn⟩ := aggRows_ok batch.flatten [] m h
  refine ⟨hn (by simp), ?_, ?_⟩
  · intro k
    rw [hm k]
    simp [dictGet]
  · intro k e he
    have := hq k
    rw [qtyOf, he] at this
    simpa [qtyOf, dictGet] using this

/-- C4 (witness): the aggregation theorem applied to a batch of three
identical Sword rows at level 85, which aggregates to the single entry
015Sword with quantity three. -/
theorem c4_aggregation_counts_witness :
    (([("015Sword", ⟨85, "Sword", 3⟩)] : UniqueItems).map Prod.fst).Nodup ∧
    ((dictGet ([("015Sword", ⟨85, "Sword", 3⟩)] : UniqueItems) "015Sword").isSome ↔
      "015Sword" ∈
        ([[⟨"Sword", IlvlField.val 85⟩, ⟨"Sword", IlvlField.val 85⟩,
            ⟨"Sword", IlvlField.val 85⟩]] : List (List Row)).flatten.filterMap rowKey) ∧
    (3 : Nat) =
      (([[⟨"Sword", IlvlField.val 85⟩, ⟨"Sword", IlvlField.val 85⟩,
          ⟨"Sword", IlvlField.val 85⟩]] : List (List Row)).flatten.filterMap rowKey).count
        "015Sword" := by
  have h := c4_aggregation_counts
    [[⟨"Sword", IlvlField.val 85⟩, ⟨"Sword", IlvlField.val 85⟩,
      ⟨"Sword", IlvlField.val 85⟩]]
    [("015Sword", ⟨85, "Sword", 3⟩)] (by rfl)
  exact ⟨h.1, h.2.1 "015Sword", h.2.2 "015Sword" ⟨85, "Sword", 3⟩ (by rfl)⟩

theorem aggRows_skip (rows : List Row)
    (hrows : ∀ r ∈ rows, r.name = "" ∨ r.ilvl = IlvlField.emptyStr) :
    ∀ m : UniqueItems, aggRows m rows = Except.ok m := by
  induction rows with
  | nil => intro m; rfl
  | cons r rest ih =>
    intro m
    have hstep : stepRow m r = Except.ok m := by
      rcases hrows r (by simp) with hn | hil
      · simp [stepRow, hn]
      · by_cases hn : r.name = "" <;> simp [stepRow, hn, hil]
    simp only [aggRows, hstep]
    exact ih (fun r hr => hrows r (by simp [hr])) m

/-- C6 (amended): aggregation silently skips every row whose name is empty
(whatever its ilvl field holds) and every row whose ilvl field is present
but the empty string; such rows contribute nothing, and a batch of only
such rows aggregates to the empty dictionary without error.  A row with a
non-empty name and a missing ilvl field, however, raises KeyError, so the
missing-field half of the original claim had to be dropped. -/
theorem c6_skip_rows_amended :
    (∀ (m : UniqueItems) (r : Row),
      (r.name = "" ∨ r.ilvl = IlvlField.emptyStr) → stepRow m r = Except.ok m) ∧
    (∀ rows : List Row,
      (∀ r ∈ rows, r.name = "" ∨ r.ilvl = IlvlField.emptyStr) →
      get_stash_quantities [rows] = Except.ok []) := by
  constructor
  · intro m r hr
    rcases hr with hn | hil
    · simp [stepRow, hn]
    · by_cases hn : r.name = "" <;> simp [stepRow, hn, hil]
  · intro rows hrows
    rw [get_stash_quantities, aggStashes_flatten]
    simpa using aggRows_skip rows hrows []

/-- C6 (counterexample): a batch holding one row with a non-empty name and a
missing ilvl field makes the aggregation raise KeyError instead of
skipping the row, refuting the claim that missing-ilvl rows are skipped
without error. -/
theorem c6_missing_ilvl_counterexample :
    get_stash_quantities [[⟨"Sword", IlvlField.missing⟩]] =
      Except.error PyErr.keyError := by
  rfl

/-- C6 (witness): the amended skip theorem applied to a concrete empty-name
row and to a concrete batch whose single row has an empty-string ilvl. -/
theorem c6_skip_rows_witness :
    stepRow [] ⟨"", IlvlField.missing⟩ = Except.ok [] ∧
    get_stash_quantities [[⟨"Axe", IlvlField.emptyStr⟩]] = Except.ok [] :=
  ⟨c6_skip_rows_amended.1 [] ⟨"", IlvlField.missing⟩ (Or.inl rfl),
   c6_skip_rows_amended.2 [⟨"Axe", IlvlField.emptyStr⟩] (by decide)⟩

/-! ## Properties of the table operations -/

/-- C2: the sync update is claimed to establish quantity, itemLevel and
itemName for an absent key; evaluating the embedded `update_table` shows
that the absent-key branch writes a record carrying only `quantity` (its
`item` and `ilvl` attributes stay absent) and then raises KeyError on its
own log line, while the present-key branch does increment the quantity
and leave `item` and `ilvl` untouched. -/
theorem c2_update_table_absent_branch_bug :
    update_table [] [("015Sword", ⟨85, "Sword", 3⟩)] = Except.error PyErr.keyError ∧
    (update_table_write [] "015Sword" ⟨85, "Sword", 3⟩).2.item = none ∧
    (update_table_write [] "015Sword" ⟨85, "Sword", 3⟩).2.ilvl = none ∧
    update_table [("015Sword", ⟨some "Sword", some 85, 5⟩)]
        [("015Sword", ⟨85, "Sword", 3⟩)] =
      Except.ok [("015Sword", ⟨some "Sword", some 85, 8⟩)] :=
  ⟨rfl, rfl, rfl, rfl⟩

theorem upload_rows_append (store : Store) (xs ys : List Row) :
    upload_stash_rows store (xs ++ ys) =
      match upload_stash_rows store xs with
      | Except.ok _ => upload_stash_rows store ys
      | Except.error e => Except.error e := by
  induction xs with
  | nil => simp [upload_stash_rows]
  | cons r rest ih =>
    simp only [List.cons_append, upload_stash_rows]
    cases hs : upload_stash_row store r with
    | error e => rfl
    | ok u => exact ih

theorem upload_go_flatten (store : Store) (stashes : List (List Row)) :
    upload_stash_go store stashes = upload_stash_rows store stashes.flatten := by
  induction stashes with
  | nil => rfl
  | cons s rest ih =>
    rw [List.flatten_cons, upload_rows_append]
    simp only [upload_stash_go]
    cases hs : upload_stash_rows store s with
    | error e => rfl
    | ok u => exact ih

theorem upload_rows_all_ok (store : Store) (rows : List Row)
    (h : ∀ r ∈ rows, upload_stash_row store r = Except.ok ()) :
    upload_stash_rows store rows = Except.ok () := by
  induction rows with
  | nil => rfl
  | cons r rest ih =>
    simp only [upload_stash_rows, h r (by simp)]
    exact ih (fun r hr => h r (by simp [hr]))

/-- C10 (amended): `upload_stash` never writes to the table (a normal return
leaves the table unchanged); a row passing the non-empty check whose key
is already present is skipped without error; and whenever the first
eventful row of the batch (all rows before it being silently processed)
passes the non-empty check with an integer ilvl and an absent key, the
call raises NameError from the undefined global `table` in the create
branch.  (The original claim had to be weakened: a preceding row with a
non-empty name and a missing ilvl field raises KeyError first.) -/
theorem c10_upload_stash_never_creates :
    (∀ (store : Store) (batch : List (List Row)) (s' : Store),
      upload_stash store batch = Except.ok s' → s' = store) ∧
    (∀ (store : Store) (r : Row) (n : Int), r.name ≠ "" →
      r.ilvl = IlvlField.val n →
      (dictGet store (create_unique_ilvl_str n r.name)).isSome →
      upload_stash_row store r = Except.ok ()) ∧
    (∀ (store : Store) (batch : List (List Row)) (L R : List Row) (r : Row) (n : Int),
      batch.flatten = L ++ r :: R →
      (∀ r' ∈ L, upload_stash_row store r' = Except.ok ()) →
      r.name ≠ "" → r.ilvl = IlvlField.val n →
      dictGet store (create_unique_ilvl_str n r.name) = none →
      upload_stash store batch = Except.error PyErr.nameError) := by
  refine ⟨?_, ?_, ?_⟩
  · intro store batch s' h
    unfold upload_stash at h
    cases hg : upload_stash_go store batch with
    | ok u =>
      rw [hg] at h
      simp only [Except.ok.injEq] at h
      exact h.symm
    | error e => rw [hg] at h; exact absurd h (by simp)
  · intro store r n hn hil hsome
    simp [upload_stash_row, hn, hil, hsome]
  · intro store batch L R r n hflat hL hn hil hnone
    have hrow : upload_stash_row store r = Except.error PyErr.nameError := by
      simp [upload_stash_row, hn, hil, hnone]
    unfold upload_stash
    rw [upload_go_flatten, hflat, upload_rows_append, upload_rows_all_ok store L hL]
    simp only [upload_stash_rows, hrow]

/-- C10 (witness): the three parts of the amended theorem at concrete
inputs: an all-skipped batch returns the unchanged empty table, a row
whose key 095B is present is skipped, and a batch whose first row has an
absent key raises NameError. -/
theorem c10_upload_stash_witness :
    ([] : Store) = [] ∧
    upload_stash_row [("095B", ⟨some "B", some 5, 0⟩)] ⟨"B", IlvlField.val 5⟩ =
      Except.ok () ∧
    upload_stash [] [[⟨"B", IlvlField.val 5⟩]] = Except.error PyErr.nameError :=
  ⟨c10_upload_stash_never_creates.1 [] [[⟨"", IlvlField.missing⟩]] [] (by rfl),
   c10_upload_stash_never_creates.2.1 [("095B", ⟨some "B", some 5, 0⟩)]
     ⟨"B", IlvlField.val 5⟩ 5 (by decide) rfl (by rfl),
   c10_upload_stash_never_creates.2.2 [] [[⟨"B", IlvlField.val 5⟩]] [] []
     ⟨"B", IlvlField.val 5⟩ 5 rfl (by simp) (by decide) rfl rfl⟩

/-- C10 (counterexample): a batch whose first row has a non-empty name and a
missing ilvl field, followed by a row that does qualify for the create
branch against the empty table, makes `upload_stash` raise KeyError (not
NameError) while processing the earlier row, refuting the claim as
stated. -/
theorem c10_keyerror_first_counterexample :
    upload_stash [] [[⟨"A", IlvlField.missing⟩, ⟨"B", IlvlField.val 5⟩]] =
      Except.error PyErr.keyError ∧
    (Except.error PyErr.keyError : Except PyErr Store) ≠
      Except.error PyErr.nameError ∧
    rowKey ⟨"B", IlvlField.val 5⟩ = some (create_unique_ilvl_str 5 "B") ∧
    dictGet ([] : Store) (create_unique_ilvl_str 5 "B") = none :=
  ⟨rfl, by simp, rfl, rfl⟩

/-- C8: a point lookup for a pair whose derived key is absent from the store
returns the not-found variant carrying the decoded name and the level;
the embedded `get_item` is total, so no error is raised. -/
theorem c8_get_item_not_found (url_decode : String → String) (store : Store)
    (item : String) (ilvl : Int)
    (h : dictGet store (create_unique_ilvl_str ilvl (url_decode item)) = none) :
    get_item url_decode store item ilvl = GetResult.notFound (url_decode item) ilvl := by
  simp [get_item, h]

/-- C8 (witness): the not-found theorem applied to the empty store with the
identity decoder at the pair (Sword, 85). -/
theorem c8_get_item_not_found_witness :
    get_item (fun s => s) [] "Sword" 85 = GetResult.notFound "Sword" 85 :=
  c8_get_item_not_found (fun s => s) [] "Sword" 85 rfl

/-- C9: the top-quantity query on an empty table returns the table-empty
sentinel for every bound, and the embedded function returns it normally
(no error value), since the scan loads nothing and the length-zero branch
returns the message before any record is read. -/
theorem c9_find_top_quantity_empty_table (n : Int) :
    find_top_quantity [] n = Except.ok TopResult.emptyMessage := rfl

theorem dictGet_dictInsert {α : Type} :
    ∀ (s : List (String × α)) (k k' : String) (v : α),
      dictGet (dictInsert s k v) k' = if k = k' then some v else dictGet s k' := by
  intro s
  induction s with
  | nil => intro k k' v; simp [dictGet, dictInsert]
  | cons kw rest ih =>
    intro k k' v
    obtain ⟨k₁, w⟩ := kw
    by_cases h₁ : k₁ = k
    · subst h₁
      by_cases h₂ : k₁ = k' <;> simp [dictGet, dictInsert, h₂]
    · by_cases h₂ : k₁ = k'
      · subst h₂
        have hne : ¬ k = k₁ := fun hc => h₁ hc.symm
        simp [dictGet, dictInsert, h₁, hne]
      · simp [dictGet, dictInsert, h₁, h₂, ih]

theorem map_fst_dictInsert_mem {α : Type} :
    ∀ (s : List (String × α)) (k : String) (v : α), k ∈ s.map Prod.fst →
      (dictInsert s k v).map Prod.fst = s.map Prod.fst := by
  intro s
  induction s with
  | nil => intro k v h; simp at h
  | cons kw rest ih =>
    intro k v h
    obtain ⟨k₁, w⟩ := kw
    by_cases h₁ : k₁ = k
    · simp [dictInsert, h₁]
    · have h' : k = k₁ ∨ k ∈ rest.map Prod.fst := by
        have hx : k ∈ k₁ :: rest.map Prod.fst := by simpa using h
        exact List.mem_cons.mp hx
      have hmem : k ∈ rest.map Prod.fst := by
        rcases h' with hc | hc
        · exact absurd hc.symm h₁
        · exact hc
      simp [dictInsert, h₁, ih k v hmem]

theorem mem_dictInsert {α : Type} :
    ∀ (s : List (String × α)) (k : String) (v : α) (x : String × α),
      x ∈ dictInsert s k v → x ∈ s ∨ x = (k, v) := by
  intro s
  induction s with
  | nil => intro k v x h; simp [dictInsert] at h; exact Or.inr h
  | cons kw rest ih =>
    intro k v x h
    obtain ⟨k₁, w⟩ := kw
    by_cases h₁ : k₁ = k
    · subst h₁
      rcases (by simpa [dictInsert] using h) with hx | hx
      · exact Or.inr (by simp [hx])
      · exact Or.inl (by simp [hx])
    · rcases (by simpa [dictInsert, h₁] using h) with hx | hx
      · exact Or.inl (by simp [hx])
      · rcases ih k v x hx with hy | hy
        · exact Or.inl (by simp [hy])
        · exact Or.inr hy

theorem dictGet_mem {α : Type} :
    ∀ (s : List (String × α)) (k : String) (v : α),
      dictGet s k = some v → (k, v) ∈ s := by
  intro s
  induction s with
  | nil => intro k v h; simp [dictGet] at h
  | cons kw rest ih =>
    intro k v h
    obtain ⟨k₁, w⟩ := kw
    by_cases h₁ : k₁ = k
    · subst h₁
      simp [dictGet] at h
      simp [h]
    · simp only [dictGet, if_neg h₁] at h
      exact List.mem_cons_of_mem _ (ih k v h)

theorem dictInsert_ne_nil {α : Type} (s : List (String × α)) (k : String) (v : α) :
    dictInsert s k v ≠ [] := by
  cases s with
  | nil => simp [dictInsert]
  | cons kw rest =>
    obtain ⟨k₁, w⟩ := kw
    by_cases h : k₁ = k <;> simp [dictInsert, h]

theorem mem_keys_isSome {α : Type} (s : List (String × α)) (k : String)
    (h : k ∈ s.map Prod.fst) : ∃ v, dictGet s k = some v := by
  cases hd : dictGet s k with
  | some v => exact ⟨v, rfl⟩
  | none => exact absurd h ((dictGet_eq_none_iff s k).mp hd)

theorem mem_dictGet_of_nodup {α : Type} :
    ∀ (s : List (String × α)), (s.map Prod.fst).Nodup →
      ∀ (k : String) (v : α), (k, v) ∈ s → dictGet s k = some v := by
  intro s
  induction s with
  | nil => intro _ k v h; simp at h
  | cons kw rest ih =>
    intro hnd k v h
    obtain ⟨k₁, w⟩ := kw
    rcases (by simpa using h) with hx | hx
    · simp [dictGet, hx.1.symm, hx.2]
    · have hk : ¬ k₁ = k := by
        intro hc
        subst hc
        have : k₁ ∈ rest.map Prod.fst :=
          List.mem_map.mpr ⟨(k₁, v), hx, rfl⟩
        exact (List.nodup_cons.mp hnd).1 this
      simp only [dictGet, if_neg hk]
      exact ih (List.nodup_cons.mp hnd).2 k v hx

theorem reset_go_ok : ∀ (ids : List String) (s : Store),
    (∀ kr ∈ s, kr.2.item.isSome ∧ kr.2.ilvl.isSome) →
    (∀ id ∈ ids, id ∈ s.map Prod.fst) →
    ∃ s', reset_table_go s ids = Except.ok s' ∧
      s'.map Prod.fst = s.map Prod.fst ∧
      (∀ kr ∈ s', kr.2.item.isSome ∧ kr.2.ilvl.isSome) ∧
      (∀ k, dictGet s' k = dictGet s k ∨
        ∃ old, dictGet s k = some old ∧
          dictGet s' k = some { old with quantity := 0 }) ∧
      (∀ id ∈ ids, ∃ q, dictGet s' id = some q ∧ q.quantity = 0) := by
  intro ids
  induction ids with
  | nil =>
    intro s hwf _
    exact ⟨s, rfl, rfl, hwf, fun k => Or.inl rfl, by simp⟩
  | cons id rest ih =>
    intro s hwf hids
    obtain ⟨old, hold⟩ := mem_keys_isSome s id (hids id (by simp))
    have holdwf := hwf (id, old) (dictGet_mem s id old hold)
    obtain ⟨it, hit⟩ := Option.isSome_iff_exists.mp holdwf.1
    obtain ⟨lv, hlv⟩ := Option.isSome_iff_exists.mp holdwf.2
    have hkeys₁ : (dictInsert s id { old with quantity := 0 }).map Prod.fst =
        s.map Prod.fst :=
      map_fst_dictInsert_mem s id _ (hids id (by simp))
    have hwf₁ : ∀ kr ∈ dictInsert s id { old with quantity := 0 },
        kr.2.item.isSome ∧ kr.2.ilvl.isSome := by
      intro kr hkr
      rcases mem_dictInsert s id _ kr hkr with hx | hx
      · exact hwf kr hx
      · rw [hx]
        exact ⟨holdwf.1, holdwf.2⟩
    have hids₁ : ∀ i ∈ rest, i ∈ (dictInsert s id { old with quantity := 0 }).map Prod.fst := by
      intro i hi
      rw [hkeys₁]
      exact hids i (by simp [hi])
    obtain ⟨s', hgo, hkeys', hwf', hdis, hzero⟩ := ih _ hwf₁ hids₁
    refine ⟨s', ?_, ?_, hwf', ?_, ?_⟩
    · simp only [reset_table_go, hold]
      rw [if_pos (show (old.item.isSome && old.ilvl.isSome) = true by
        simp only [Bool.and_eq_true]
        exact holdwf)]
      exact hgo
    · rw [hkeys', hkeys₁]
    · intro k
      rcases hdis k with hx | ⟨old₁, h₁, h₂⟩
      · rw [hx, dictGet_dictInsert]
        by_cases hk : id = k
        · subst hk
          exact Or.inr ⟨old, hold, by simp⟩
        · exact Or.inl (by simp [hk])
      · rw [dictGet_dictInsert] at h₁
        by_cases hk : id = k
        · subst hk
          rw [if_pos rfl] at h₁
          have hzr : old₁ = { old with quantity := 0 } := by
            simpa using h₁.symm
          refine Or.inr ⟨old, hold, ?_⟩
          rw [h₂, hzr]
        · rw [if_neg hk] at h₁
          exact Or.inr ⟨old₁, h₁, h₂⟩
    · intro i hi
      rcases List.mem_cons.mp hi with rfl | hi'
      · rcases hdis i with hx | ⟨old₁, h₁, h₂⟩
        · refine ⟨{ old with quantity := 0 }, ?_, rfl⟩
          rw [hx, dictGet_dictInsert, if_pos rfl]
        · exact ⟨{ old₁ with quantity := 0 }, h₂, rfl⟩
      · exact hzero i hi'

theorem reset_table_ok (store : Store)
    (hwf : ∀ kr ∈ store, kr.2.item.isSome ∧ kr.2.ilvl.isSome)
    (hnd : (store.map Prod.fst).Nodup) :
    ∃ store', reset_table store = Except.ok store' ∧
      store'.map Prod.fst = store.map Prod.fst ∧
      (∀ kr ∈ store', kr.2.item.isSome ∧ kr.2.ilvl.isSome) ∧
      (∀ kr ∈ store', ¬ kr.2.quantity > 0) := by
  have hids : ∀ id ∈ (store.filter (fun kr => kr.2.quantity > 0)).map Prod.fst,
      id ∈ store.map Prod.fst := by
    intro id hid
    obtain ⟨kr, hkr, hfst⟩ := List.mem_map.mp hid
    exact List.mem_map.mpr ⟨kr, (List.mem_filter.mp hkr).1, hfst⟩
  obtain ⟨s', hgo, hkeys, hwf', hdis, hzero⟩ := reset_go_ok _ store hwf hids
  refine ⟨s', hgo, hkeys, hwf', ?_⟩
  intro kr hkr hpos
  have hnd' : (s'.map Prod.fst).Nodup := by rw [hkeys]; exact hnd
  have hget : dictGet s' kr.1 = some kr.2 :=
    mem_dictGet_of_nodup s' hnd' kr.1 kr.2 hkr
  rcases hdis kr.1 with hx | ⟨old, h₁, h₂⟩
  · have hmem : (kr.1, kr.2) ∈ store :=
      dictGet_mem store kr.1 kr.2 (by rw [← hx]; exact hget)
    have hidmem : kr.1 ∈ (store.filter (fun kr => kr.2.quantity > 0)).map Prod.fst :=
      List.mem_map.mpr ⟨(kr.1, kr.2),
        List.mem_filter.mpr ⟨hmem, by simpa using hpos⟩, rfl⟩
    obtain ⟨q, hq, hq0⟩ := hzero kr.1 hidmem
    rw [hget] at hq
    have hqe : kr.2 = q := by simpa using hq
    rw [hqe, hq0] at hpos
    exact absurd hpos (by omega)
  · rw [hget] at h₂
    have hqe : kr.2 = { old with quantity := 0 } := by simpa using h₂
    rw [hqe] at hpos
    exact absurd hpos (by simp)

theorem scanLoad_go_ok : ∀ (s : Store) (d₀ : List (String × TopRec)),
    (∀ kr ∈ s, kr.2.item.isSome ∧ kr.2.ilvl.isSome) →
    ∃ d, scanLoad_go d₀ s = Except.ok d ∧
      (∀ x ∈ d, x ∈ d₀ ∨ ∃ kr, kr ∈ s ∧ x.2.quantity = kr.2.quantity) ∧
      (d = [] → s = [] ∧ d₀ = []) := by
  intro s
  induction s with
  | nil =>
    intro d₀ _
    exact ⟨d₀, rfl, fun x hx => Or.inl hx, fun h => ⟨rfl, h⟩⟩
  | cons kr rest ih =>
    intro d₀ hwf
    obtain ⟨it, hit⟩ := Option.isSome_iff_exists.mp (hwf kr (by simp)).1
    obtain ⟨lv, hlv⟩ := Option.isSome_iff_exists.mp (hwf kr (by simp)).2
    obtain ⟨d, hgo, hmem, hnil⟩ := ih (dictInsert d₀ kr.1 ⟨it, lv, kr.2.quantity⟩)
      (fun x hx => hwf x (by simp [hx]))
    refine ⟨d, ?_, ?_, ?_⟩
    · simp only [scanLoad_go, hit, hlv]
      exact hgo
    · intro x hx
      rcases hmem x hx with hx' | ⟨kr', hkr', hq⟩
      · rcases mem_dictInsert _ _ _ x hx' with hy | hy
        · exact Or.inl hy
        · exact Or.inr ⟨kr, by simp, by rw [hy]⟩
      · exact Or.inr ⟨kr', by simp [hkr'], hq⟩
    · intro hd
      exact absurd (hnil hd).2 (dictInsert_ne_nil _ _ _)

theorem mem_insertByKey :
    ∀ (l : List (String × TopRec)) (x z : String × TopRec),
      z ∈ insertByKey x l → z = x ∨ z ∈ l := by
  intro l
  induction l with
  | nil =>
    intro x z hz
    simp [insertByKey] at hz
    exact Or.inl hz
  | cons y ys ih =>
    intro x z hz
    by_cases h : x.1 ≤ y.1
    · have hz' : z = x ∨ z = y ∨ z ∈ ys := by simpa [insertByKey, h] using hz
      rcases hz' with h₁ | h₁ | h₁
      · exact Or.inl h₁
      · exact Or.inr (by simp [h₁])
      · exact Or.inr (by simp [h₁])
    · have hz' : z = y ∨ z ∈ insertByKey x ys := by simpa [insertByKey, h] using hz
      rcases hz' with h₁ | h₁
      · exact Or.inr (by simp [h₁])
      · rcases ih x z h₁ with h₂ | h₂
        · exact Or.inl h₂
        · exact Or.inr (by simp [h₂])

theorem mem_sortByKey :
    ∀ (l : List (String × TopRec)) (z : String × TopRec),
      z ∈ sortByKey l → z ∈ l := by
  intro l
  induction l with
  | nil => intro z hz; simp [sortByKey] at hz
  | cons x xs ih =>
    intro z hz
    rcases mem_insertByKey (sortByKey xs) x z (by simpa [sortByKey] using hz) with h | h
    · simp [h]
    · simp [ih z h]

theorem top_walk_no_positive (n : Int) :
    ∀ (xs : List (String × TopRec)) (total counter : Int) (acc : List TopRec),
      (∀ x ∈ xs, ¬ x.2.quantity > 0) → top_walk n xs total counter acc = acc := by
  intro xs
  induction xs with
  | nil => intro total counter acc _; rfl
  | cons kr rest ih =>
    intro total counter acc h
    have hq : ¬ kr.2.quantity > 0 := h kr (by simp)
    simp only [top_walk, if_neg hq]
    split
    · rfl
    · exact ih total counter acc (fun x hx => h x (by simp [hx]))

theorem find_top_no_positive (store : Store) (n : Int)
    (hwf : ∀ kr ∈ store, kr.2.item.isSome ∧ kr.2.ilvl.isSome)
    (hq : ∀ kr ∈ store, ¬ kr.2.quantity > 0) (hne : store ≠ []) :
    find_top_quantity store n = Except.ok (TopResult.items []) := by
  obtain ⟨d, hgo, hmem, hnil⟩ := scanLoad_go_ok store [] hwf
  have hdne : d ≠ [] := fun hd => hne (hnil hd).1
  have hlen : ¬ d.length = 0 := fun h0 => hdne (List.eq_nil_of_length_eq_zero h0)
  have hall : ∀ x ∈ sortByKey d, ¬ x.2.quantity > 0 := by
    intro x hx
    rcases hmem x (mem_sortByKey d x hx) with h₀ | ⟨kr, hkr, hqx⟩
    · simp at h₀
    · rw [hqx]
      exact hq kr hkr
  simp only [find_top_quantity, hgo]
  rw [if_neg hlen, top_walk_no_positive n _ 0 0 [] hall]

/-- C7: starting from any non-empty table whose records carry the `item` and
`ilvl` attributes with duplicate-free keys (the record shape the data
model prescribes), `reset_table` succeeds, and `find_top_quantity` on the
resulting table returns, for every bound, a record list with no entry of
positive quantity (in fact the empty list, since the accumulation loop
only takes records with `quantity > 0`). -/
theorem c7_reset_then_find_top (store : Store)
    (hwf : ∀ kr ∈ store, kr.2.item.isSome ∧ kr.2.ilvl.isSome)
    (hnd : (store.map Prod.fst).Nodup) (hne : store ≠ []) :
    ∃ store', reset_table store = Except.ok store' ∧
      ∀ n : Int, ∃ l, find_top_quantity store' n = Except.ok (TopResult.items l) ∧
        ∀ e ∈ l, ¬ e.quantity > 0 := by
  obtain ⟨s', hr, hkeys, hwf', hq'⟩ := reset_table_ok store hwf hnd
  have hne' : s' ≠ [] := by
    intro hs
    apply hne
    rw [hs] at hkeys
    have : store.map Prod.fst = [] := hkeys.symm
    simpa using this
  exact ⟨s', hr, fun n => ⟨[], find_top_no_positive s' n hwf' hq' hne', by simp⟩⟩

/-- C7 (witness): the reset-then-query theorem applied to the concrete
one-record table holding 015Sword with quantity five. -/
theorem c7_reset_then_find_top_witness :
    ∃ store', reset_table [("015Sword", ⟨some "Sword", some 85, 5⟩)] =
        Except.ok store' ∧
      ∀ n : Int, ∃ l, find_top_quantity store' n = Except.ok (TopResult.items l) ∧
        ∀ e ∈ l, ¬ e.quantity > 0 :=
  c7_reset_then_find_top [("015Sword", ⟨some "Sword", some 85, 5⟩)]
    (by decide) (by decide) (by decide)
